import Mathlib

/-!
Verification of the quantum-svm repository core: the AdaBoost ensemble
(`src/adaboost.py`), the kernel-matrix wrapper `VectorizeKernel` and the
entanglement-pattern generator `get_entanglement_pattern`
(`src/quantum_kernels.py`).

Real-valued data (sample features, weights, alphas, kernel values) is
modelled with `ℝ`; labels and classifier outputs with `Int` (the code only
ever compares and multiplies them); sample matrices with `List (List ℝ)`.
Fallible code paths (numpy `ValueError` from `argmin` on an empty sequence,
Python `ValueError` for an unknown entanglement tag) are modelled with
`Except String`.
-/

/-! ## Entanglement pattern generator (src/quantum_kernels.py, lines 116-165) -/

/-- Models `itertools.combinations(l, 2)`: all pairs of elements of `l`
taken at two distinct positions, in lexicographic position order. -/
def comb2 {α : Type} : List α → List (α × α)
  | [] => []
  | x :: xs => xs.map (fun y => (x, y)) ++ comb2 xs

/-- Models Python `range(start, stop, step)` for a positive `step`. -/
def rangeStep (start stop step : Nat) : List Nat :=
  (List.range ((stop - start + step - 1) / step)).map (fun k => start + step * k)

/-- Source line 140: `combinations(range(num_qubits), 2)`. -/
def fullPattern (num_qubits : Nat) : List (Nat × Nat) :=
  comb2 (List.range num_qubits)

/-- Source line 143: `(i, i + 1) for i in range(num_qubits - 1)`. -/
def linearPattern (num_qubits : Nat) : List (Nat × Nat) :=
  (List.range (num_qubits - 1)).map (fun i => (i, i + 1))

/-- Source line 146: `(i, i - 1) for i in range(num_qubits - 1, 0, -1)`.
The descending Python range `num_qubits - 1, num_qubits - 2, ..., 1` is
written as a map over `List.range (num_qubits - 1)`. -/
def reverseLinearPattern (num_qubits : Nat) : List (Nat × Nat) :=
  ((List.range (num_qubits - 1)).map (fun k => num_qubits - 1 - k)).map (fun i => (i, i - 1))

/-- Source lines 149-151: the even-start pairs `range(0, num_qubits - 1, 2)`
chained with the odd-start pairs `range(1, num_qubits - 1, 2)`. -/
def pairwisePattern (num_qubits : Nat) : List (Nat × Nat) :=
  (rangeStep 0 (num_qubits - 1) 2).map (fun i => (i, i + 1)) ++
    (rangeStep 1 (num_qubits - 1) 2).map (fun i => (i, i + 1))

/-- Source line 154: `chain([(num_qubits - 1, 0)], get_entanglement_pattern(num_qubits, 'linear'))`. -/
def circularPattern (num_qubits : Nat) : List (Nat × Nat) :=
  (num_qubits - 1, 0) :: linearPattern num_qubits

/-- Source lines 157-160: the circular pattern indexed at `(i - rep) % num_qubits`
(Python modulo, hence `Int.emod` followed by `toNat`), with the pair elements
swapped when `rep` is odd. -/
def scaPattern (num_qubits : Nat) (rep : Nat) : List (Nat × Nat) :=
  let circ_pattern := circularPattern num_qubits
  let pattern := (List.range num_qubits).map
    (fun (i : Nat) => circ_pattern.getD (((i : Int) - rep) % num_qubits).toNat (0, 0))
  if rep % 2 = 1 then pattern.map (fun p => (p.2, p.1)) else pattern

/-- Source lines 138-165: dispatch on the topology tag, raising `ValueError`
for an unknown tag. -/
def get_entanglement_pattern (num_qubits : Nat) (entanglement : String) (rep : Nat) :
    Except String (List (Nat × Nat)) :=
  match entanglement with
  | "full" => .ok (fullPattern num_qubits)
  | "linear" => .ok (linearPattern num_qubits)
  | "reverse_linear" => .ok (reverseLinearPattern num_qubits)
  | "pairwise" => .ok (pairwisePattern num_qubits)
  | "circular" => .ok (circularPattern num_qubits)
  | "sca" => .ok (scaPattern num_qubits rep)
  | _ => .error ("Unknown entanglement pattern " ++ entanglement)

/-! Spec-side definitions, written from the topology table of the
specification (section 4.3), to be compared with the source translation. -/

/-- Spec table: every unordered pair `(i, j)` with `i < j`, in lexicographic
order: for each `i` ascending, all larger `j` ascending. -/
def specFull (Q : Nat) : List (Nat × Nat) :=
  (List.range Q).flatMap (fun i => ((List.range Q).filter (fun j => i < j)).map (fun j => (i, j)))

/-- Spec table: `(0,1),(1,2),...,(Q-2,Q-1)`. -/
def specLinear (Q : Nat) : List (Nat × Nat) :=
  (List.range (Q - 1)).map (fun i => (i, i + 1))

/-- Spec table: `(Q-1,Q-2),(Q-2,Q-3),...,(1,0)`. -/
def specReverseLinear (Q : Nat) : List (Nat × Nat) :=
  (List.range (Q - 1)).map (fun k => (Q - 1 - k, Q - 2 - k))

/-- Spec table: first all even-start pairs `(0,1),(2,3),...`, then all
odd-start pairs `(1,2),(3,4),...`, staying inside `[0, Q)`. -/
def specPairwise (Q : Nat) : List (Nat × Nat) :=
  (List.range (Q / 2)).map (fun k => (2 * k, 2 * k + 1)) ++
    (List.range ((Q - 1) / 2)).map (fun k => (2 * k + 1, 2 * k + 2))

/-- Spec table: `(Q-1, 0)` followed by the linear sequence. -/
def specCircular (Q : Nat) : List (Nat × Nat) :=
  (Q - 1, 0) :: specLinear Q

/-! ## AdaBoost ensemble (src/adaboost.py) -/

/-- A weak classifier: maps a sample matrix to one label per sample.
Labels are the integers `-1` and `+1` in actual use; the code never
restricts them, so the type does not either. -/
def Clf : Type := List (List ℝ) → List Int

/-- Models the `AdaBoost` class state: the fields set by `__init__`
(lines 33-37) and mutated by `fit` (lines 79-80). -/
structure AdaBoost where
  weak_classifiers : List Clf
  n_estimators : Nat
  num_workers : Nat
  alphas : List ℝ
  selected_classifiers : List Clf

/-- Models `AdaBoost.__init__` (lines 18-37): stores the configuration and
starts with empty `alphas` and `selected_classifiers`. -/
def AdaBoost.init (weak_classifiers : List Clf) (n_estimators : Nat)
    (num_workers : Nat) : AdaBoost :=
  { weak_classifiers := weak_classifiers, n_estimators := n_estimators,
    num_workers := num_workers, alphas := [], selected_classifiers := [] }

/-- Source line 61: `np.sum(w[y != preds])`, the total weight of the samples
on which the candidate prediction disagrees with the true label. -/
noncomputable def weightedError (w : List ℝ) (y preds : List Int) : ℝ :=
  ((w.zip (y.zip preds)).map (fun p => if p.2.1 ≠ p.2.2 then p.1 else 0)).sum

/-- Source line 61: the weighted error of every candidate classifier. -/
noncomputable def errorsOf (clfs : List Clf) (X : List (List ℝ)) (y : List Int)
    (w : List ℝ) : List ℝ :=
  (clfs.map (fun clf => clf X)).map (fun preds => weightedError w y preds)

/-- Helper for `argminIdx`: scans the tail keeping the index of the first
strictly smallest value seen so far. -/
noncomputable def argminGo : List ℝ → ℝ → Nat → Nat → Nat
  | [], _, bi, _ => bi
  | x :: xs, bv, bi, i => if x < bv then argminGo xs x i (i + 1) else argminGo xs bv bi (i + 1)

/-- Models `np.argmin` (source line 64): index of the first occurrence of the
minimum, or a `ValueError` (`none`) on an empty sequence. -/
noncomputable def argminIdx : List ℝ → Option Nat
  | [] => none
  | x :: xs => some (argminGo xs x 0 1)

/-- Source line 71: `alpha = 0.5 * np.log((1 - error) / (error + 1e-10))`. -/
noncomputable def alphaFormula (error : ℝ) : ℝ :=
  0.5 * Real.log ((1 - error) / (error + 1e-10))

/-- Source lines 75-76: multiply each sample weight by
`exp(-alpha * y_i * pred_i)` and renormalize the vector to total weight 1. -/
noncomputable def updateWeights (w : List ℝ) (y preds : List Int) (alpha : ℝ) : List ℝ :=
  let w1 := (w.zip (y.zip preds)).map
    (fun p => p.1 * Real.exp (-alpha * (p.2.1 : ℝ) * (p.2.2 : ℝ)))
  w1.map (fun x => x / w1.sum)

/-- One iteration of the boosting loop (source lines 59-80): evaluate all
candidates, pick the first with minimal weighted error (numpy `ValueError`
if there are no candidates), break out of the loop when that error is at
least 1, and otherwise return the alpha, the selected classifier and the
updated weight vector. -/
noncomputable def fitRound (clfs : List Clf) (X : List (List ℝ)) (y : List Int)
    (w : List ℝ) : Except String (Option (ℝ × Clf × List ℝ)) :=
  let weak_clf_preds := clfs.map (fun clf => clf X)
  let errors := weak_clf_preds.map (fun preds => weightedError w y preds)
  match argminIdx errors with
  | none => .error "attempt to get argmin of an empty sequence"
  | some best_clf_idx =>
    let error := errors.getD best_clf_idx 0
    if 1 ≤ error then .ok none
    else
      let alpha := alphaFormula error
      let predictions := weak_clf_preds.getD best_clf_idx []
      .ok (some (alpha, clfs.getD best_clf_idx (fun _ => []),
        updateWeights w y predictions alpha))

/-- The boosting loop of `fit` (source line 58): up to `n_estimators` rounds,
threading the weight vector and appending one record per completed round.
Returns the final weights together with the accumulated records. -/
noncomputable def fitLoop (clfs : List Clf) (X : List (List ℝ)) (y : List Int) :
    Nat → List ℝ → List ℝ → List Clf → Except String (List ℝ × List ℝ × List Clf)
  | 0, w, alphas, sel => .ok (w, alphas, sel)
  | rounds + 1, w, alphas, sel =>
    match fitRound clfs X y w with
    | .error e => .error e
    | .ok none => .ok (w, alphas, sel)
    | .ok (some (alpha, clf, w2)) =>
      fitLoop clfs X y rounds w2 (alphas ++ [alpha]) (sel ++ [clf])

/-- Source line 56: `w = np.ones(n_samples) / n_samples`. -/
noncomputable def initialWeights (n_samples : Nat) : List ℝ :=
  List.replicate n_samples ((1 : ℝ) / n_samples)

/-- Models `AdaBoost.fit` (lines 39-82): uniform initial weights, then the
boosting loop; the records accumulate onto the instance fields, which are
not reset. -/
noncomputable def AdaBoost.fit (m : AdaBoost) (X : List (List ℝ)) (y : List Int) :
    Except String AdaBoost :=
  match fitLoop m.weak_classifiers X y m.n_estimators (initialWeights X.length)
      m.alphas m.selected_classifiers with
  | .error e => .error e
  | .ok (_, alphas, sel) => .ok { m with alphas := alphas, selected_classifiers := sel }

/-- Models `AdaBoost.predict` (lines 84-106): per sample, the sign of the
alpha-weighted sum of the selected classifiers' predictions, with ties at
exactly zero resolved to `-1` (`np.where(np.dot(...) > 0, 1, -1)`). The
`num_workers > 1` branch of the source computes the same list of prediction
vectors through a thread pool, reassembled in submission order, so it is not
modelled separately. -/
noncomputable def AdaBoost.predict (m : AdaBoost) (X : List (List ℝ)) : List Int :=
  let clf_preds := m.selected_classifiers.map (fun clf => clf X)
  (List.range X.length).map (fun j =>
    let s := ((m.alphas.zip clf_preds).map
      (fun p => p.1 * ((p.2.getD j 0 : Int) : ℝ))).sum
    if 0 < s then 1 else -1)

/-! ## VectorizeKernel (src/quantum_kernels.py, lines 12-53) -/

/-- Models the `VectorizeKernel` class: it only holds the injected scalar
kernel function. -/
structure VectorizeKernel where
  kernel : List ℝ → List ℝ → ℝ

/-- Models `VectorizeKernel.__call__` (lines 25-53): `Y` defaults to `X` when
omitted, and the result is the matrix of `kernel(X[i], Y[j])` values built by
two nested loops. The source performs no shape validation of any kind. -/
def VectorizeKernel.call (k : VectorizeKernel) (X : List (List ℝ))
    (Y : Option (List (List ℝ))) : List (List ℝ) :=
  let Yv := Y.getD X
  X.map (fun x => Yv.map (fun yrow => k.kernel x yrow))

/-! ## Spec-side definition for the prediction score, and concrete inputs
used by the witnesses -/

/-- Spec wording for `predict`: per sample `j`, the alpha-weighted sum of all
selected classifiers' predictions. -/
noncomputable def specScore (alphas : List ℝ) (preds : List (List Int)) (j : Nat) : ℝ :=
  ∑ k ∈ Finset.range alphas.length, alphas.getD k 0 * ((preds.getD k []).getD j 0 : ℝ)

/-- A concrete weak classifier predicting `+1` for every sample. -/
def clfOne : Clf := fun X => List.replicate X.length 1

/-- A concrete weak classifier predicting `-1` for every sample. -/
def clfNeg : Clf := fun X => List.replicate X.length (-1)

/-- A concrete scalar kernel returning `0` for every pair of samples. -/
def zeroKernel : VectorizeKernel := ⟨fun _ _ => 0⟩

/-! ## Lemmas relating the source patterns to the spec table -/

theorem comb2_map {α β : Type} (f : α → β) (l : List α) :
    comb2 (l.map f) = (comb2 l).map (Prod.map f f) := by
  induction l with
  | nil => rfl
  | cons x xs ih => simp [comb2, ih, List.map_map, Function.comp_def]

theorem filter_pos_map_succ (n : Nat) :
    ((List.range n).map Nat.succ).filter (fun j => 0 < j) = (List.range n).map Nat.succ := by
  rw [List.filter_eq_self]
  intro a ha
  rcases List.mem_map.mp ha with ⟨k, _, rfl⟩
  simp

theorem filter_lt_map_succ (n i : Nat) :
    ((List.range n).map Nat.succ).filter (fun j => i + 1 < j) =
      ((List.range n).filter (fun k => i < k)).map Nat.succ := by
  rw [List.filter_map]
  congr 1
  apply List.filter_congr
  intro k _
  simp [Function.comp, Nat.succ_lt_succ_iff]

theorem fullPattern_eq_specFull (Q : Nat) : fullPattern Q = specFull Q := by
  induction Q with
  | zero => rfl
  | succ n ih =>
    unfold fullPattern specFull
    rw [List.range_succ_eq_map]
    show ((List.range n).map Nat.succ).map (fun y => (0, y)) ++
        comb2 ((List.range n).map Nat.succ) = _
    rw [comb2_map]
    rw [show comb2 (List.range n) = specFull n from ih]
    rw [List.flatMap_cons, List.flatMap_map]
    congr 1
    · rw [List.filter_cons, if_neg (by simp), filter_pos_map_succ]
    · unfold specFull
      rw [List.map_flatMap]
      apply List.flatMap_congr
      intro i _
      rw [List.filter_cons, if_neg (by simp), Nat.succ_eq_add_one, filter_lt_map_succ,
        List.map_map, List.map_map]
      rfl

theorem linearPattern_eq_specLinear (Q : Nat) : linearPattern Q = specLinear Q := rfl

theorem reverseLinearPattern_eq (Q : Nat) : reverseLinearPattern Q = specReverseLinear Q := by
  unfold reverseLinearPattern specReverseLinear
  rw [List.map_map]
  apply List.map_congr_left
  intro k _
  simp only [Function.comp]
  congr 1
  omega

theorem sub_one_add_one_div_two (m : Nat) : (m - 1 + 1) / 2 = m / 2 := by
  cases m <;> rfl

theorem pairwisePattern_eq (Q : Nat) (hQ : 1 ≤ Q) : pairwisePattern Q = specPairwise Q := by
  unfold pairwisePattern specPairwise rangeStep
  congr 1
  · rw [List.map_map]
    rw [show Q - 1 - 0 + 2 - 1 = Q - 1 + 1 from by omega, Nat.sub_add_cancel hQ]
    apply List.map_congr_left
    intro k _
    simp [Function.comp]
  · rw [List.map_map]
    rw [show Q - 1 - 1 + 2 - 1 = Q - 1 - 1 + 1 from by omega, sub_one_add_one_div_two]
    apply List.map_congr_left
    intro k _
    simp [Function.comp]
    omega

theorem circularPattern_eq_specCircular (Q : Nat) : circularPattern Q = specCircular Q := rfl

/-- C7: for every qubit count `Q ≥ 1`, `get_entanglement_pattern` yields exactly
the sequence of the topology table of the spec: `full` gives every unordered
pair `(i, j)` with `i < j` in lexicographic order, `linear` gives
`(0,1),...,(Q-2,Q-1)`, `reverse_linear` gives `(Q-1,Q-2),...,(1,0)`,
`pairwise` gives all even-start pairs followed by all odd-start pairs, and
`circular` gives `(Q-1,0)` followed by the linear sequence. -/
theorem entanglement_table_correct (Q : Nat) (hQ : 1 ≤ Q) :
    get_entanglement_pattern Q "full" 0 = .ok (specFull Q) ∧
    get_entanglement_pattern Q "linear" 0 = .ok (specLinear Q) ∧
    get_entanglement_pattern Q "reverse_linear" 0 = .ok (specReverseLinear Q) ∧
    get_entanglement_pattern Q "pairwise" 0 = .ok (specPairwise Q) ∧
    get_entanglement_pattern Q "circular" 0 = .ok (specCircular Q) := by
  refine ⟨?_, ?_, ?_, ?_, ?_⟩ <;>
    simp [get_entanglement_pattern, fullPattern_eq_specFull, linearPattern_eq_specLinear,
      reverseLinearPattern_eq, pairwisePattern_eq Q hQ, circularPattern_eq_specCircular]

/-- Witness for C7 at the spec example `Q = 4`. -/
theorem entanglement_table_correct_witness :
    1 ≤ 4 ∧
      (get_entanglement_pattern 4 "full" 0 = .ok (specFull 4) ∧
      get_entanglement_pattern 4 "linear" 0 = .ok (specLinear 4) ∧
      get_entanglement_pattern 4 "reverse_linear" 0 = .ok (specReverseLinear 4) ∧
      get_entanglement_pattern 4 "pairwise" 0 = .ok (specPairwise 4) ∧
      get_entanglement_pattern 4 "circular" 0 = .ok (specCircular 4)) :=
  ⟨by decide, entanglement_table_correct 4 (by decide)⟩

theorem getD_map_range {α : Type} (f : Nat → α) (Q i : Nat) (hi : i < Q) (d : α) :
    ((List.range Q).map f).getD i d = f i := by
  rw [List.getD_eq_getElem _ d (by simpa using hi)]
  simp

theorem scaPattern_eq (Q rep : Nat) :
    scaPattern Q rep =
      if rep % 2 = 1
      then ((List.range Q).map
          (fun (i : Nat) => (circularPattern Q).getD (((i : Int) - rep) % Q).toNat (0, 0))).map
          (fun p => (p.2, p.1))
      else (List.range Q).map
          (fun (i : Nat) => (circularPattern Q).getD (((i : Int) - rep) % Q).toNat (0, 0)) := rfl

/-- C8: for every `Q ≥ 1` and repetition index `rep`, the `sca` pattern has
length `Q` and its entry at index `i` is the spec's circular sequence indexed
at `(i - rep) mod Q`, with the two elements of each pair swapped when `rep`
is odd. -/
theorem sca_rotation_correct (Q rep : Nat) (hQ : 1 ≤ Q) :
    ∃ l, get_entanglement_pattern Q "sca" rep = .ok l ∧ l.length = Q ∧
      ∀ i, i < Q → l.getD i (0, 0) =
        (let p := (specCircular Q).getD (((i : Int) - rep) % Q).toNat (0, 0)
         if rep % 2 = 1 then (p.2, p.1) else p) := by
  refine ⟨scaPattern Q rep, rfl, ?_, ?_⟩
  · rw [scaPattern_eq]
    by_cases h : rep % 2 = 1
    · rw [if_pos h, List.length_map, List.length_map, List.length_range]
    · rw [if_neg h, List.length_map, List.length_range]
  · intro i hi
    rw [scaPattern_eq]
    by_cases h : rep % 2 = 1
    · rw [if_pos h, List.map_map, getD_map_range _ Q i hi]
      simp only [Function.comp, circularPattern_eq_specCircular, h, if_pos]
    · rw [if_neg h, getD_map_range _ Q i hi]
      simp only [circularPattern_eq_specCircular, h, if_neg, if_false]

/-- Witness for C8 at the spec example `Q = 5`, `rep = 1`. -/
theorem sca_rotation_correct_witness :
    1 ≤ 5 ∧
      ∃ l, get_entanglement_pattern 5 "sca" 1 = .ok l ∧ l.length = 5 ∧
        ∀ i, i < 5 → l.getD i (0, 0) =
          (let p := (specCircular 5).getD (((i : Int) - 1) % 5).toNat (0, 0)
           if 1 % 2 = 1 then (p.2, p.1) else p) :=
  ⟨by decide, sca_rotation_correct 5 1 (by decide)⟩

/-! ## Lemmas about the argmin scan -/

theorem argminGo_spec (xs : List ℝ) : ∀ (bv : ℝ) (bi i : Nat),
    ∃ v, ((argminGo xs bv bi i = bi ∧ v = bv) ∨
        (∃ k, ∃ hk : k < xs.length, argminGo xs bv bi i = i + k ∧ v = xs.get ⟨k, hk⟩)) ∧
      v ≤ bv ∧ ∀ x ∈ xs, v ≤ x := by
  induction xs with
  | nil =>
    intro bv bi i
    exact ⟨bv, Or.inl ⟨rfl, rfl⟩, le_refl bv, by simp⟩
  | cons x xs ih =>
    intro bv bi i
    by_cases h : x < bv
    · obtain ⟨v, hcase, hle, hall⟩ := ih x i (i + 1)
      have hres : argminGo (x :: xs) bv bi i = argminGo xs x i (i + 1) := by
        simp [argminGo, if_pos h]
      refine ⟨v, ?_, le_of_lt (lt_of_le_of_lt hle h), ?_⟩
      · right
        rcases hcase with ⟨heq, hveq⟩ | ⟨k, hk, heq, hveq⟩
        · exact ⟨0, by simp, by rw [hres, heq]; omega, by simpa using hveq⟩
        · exact ⟨k + 1, by simpa using hk, by rw [hres, heq]; omega, by simpa using hveq⟩
      · intro z hz
        rcases List.mem_cons.mp hz with rfl | hz2
        · exact hle
        · exact hall z hz2
    · obtain ⟨v, hcase, hle, hall⟩ := ih bv bi (i + 1)
      have hres : argminGo (x :: xs) bv bi i = argminGo xs bv bi (i + 1) := by
        simp [argminGo, if_neg h]
      refine ⟨v, ?_, hle, ?_⟩
      · rcases hcase with ⟨heq, hveq⟩ | ⟨k, hk, heq, hveq⟩
        · exact Or.inl ⟨by rw [hres, heq], hveq⟩
        · exact Or.inr ⟨k + 1, by simpa using hk, by rw [hres, heq]; omega, by simpa using hveq⟩
      · intro z hz
        rcases List.mem_cons.mp hz with rfl | hz2
        · exact le_trans hle (not_lt.mp h)
        · exact hall z hz2

theorem argminIdx_spec (l : List ℝ) (bi : Nat) (h : argminIdx l = some bi) :
    bi < l.length ∧ ∀ x ∈ l, l.getD bi 0 ≤ x := by
  match l with
  | [] => simp [argminIdx] at h
  | x :: xs =>
    have hbi : argminGo xs x 0 1 = bi := by
      simpa [argminIdx] using h
    obtain ⟨v, hcase, hle, hall⟩ := argminGo_spec xs x 0 1
    rcases hcase with ⟨heq, hveq⟩ | ⟨k, hk, heq, hveq⟩
    · subst hveq
      have h0 : bi = 0 := by omega
      subst h0
      refine ⟨by simp, ?_⟩
      intro z hz
      rcases List.mem_cons.mp hz with rfl | hz2
      · simp
      · simpa using hall z hz2
    · have hbk : bi = k + 1 := by omega
      subst hbk
      have hlen : k + 1 < (x :: xs).length := by simpa using Nat.succ_lt_succ hk
      refine ⟨hlen, ?_⟩
      have hgd : (x :: xs).getD (k + 1) 0 = v := by
        rw [List.getD_eq_getElem _ 0 hlen]
        simpa [hveq] using (List.get_eq_getElem xs ⟨k, hk⟩).symm
      rw [hgd]
      intro z hz
      rcases List.mem_cons.mp hz with rfl | hz2
      · exact hle
      · exact hall z hz2

theorem argminIdx_of_ne_nil (l : List ℝ) (h : l ≠ []) : ∃ bi, argminIdx l = some bi := by
  match l with
  | [] => exact absurd rfl h
  | x :: xs => exact ⟨argminGo xs x 0 1, rfl⟩

/-- Unfolding characterization of `fitRound` in terms of the named pieces. -/
theorem fitRound_eq (clfs : List Clf) (X : List (List ℝ)) (y : List Int) (w : List ℝ) :
    fitRound clfs X y w =
      match argminIdx (errorsOf clfs X y w) with
      | none => .error "attempt to get argmin of an empty sequence"
      | some bi =>
        if 1 ≤ (errorsOf clfs X y w).getD bi 0 then .ok none
        else .ok (some (alphaFormula ((errorsOf clfs X y w).getD bi 0),
            clfs.getD bi (fun _ => []),
            updateWeights w y ((clfs.map (fun clf => clf X)).getD bi [])
              (alphaFormula ((errorsOf clfs X y w).getD bi 0)))) := rfl

theorem errorsOf_ne_nil (clfs : List Clf) (X : List (List ℝ)) (y : List Int)
    (w : List ℝ) (h : clfs ≠ []) : errorsOf clfs X y w ≠ [] := by
  simp [errorsOf, h]

theorem errorsOf_length (clfs : List Clf) (X : List (List ℝ)) (y : List Int)
    (w : List ℝ) : (errorsOf clfs X y w).length = clfs.length := by
  simp [errorsOf]

/-- C1: in every boosting round of `fit` in which the minimum weighted error
is below 1, the loop appends exactly the classifier weight
`alpha = 0.5 * ln((1 - error) / (error + 1e-10))`, with the constant `1e-10`
added only in the denominator and the error not clamped away from 1. -/
theorem alpha_formula_in_round (clfs : List Clf) (X : List (List ℝ)) (y : List Int)
    (w : List ℝ) (alphas : List ℝ) (sel : List Clf) (rounds : Nat)
    (hne : clfs ≠ [])
    (hmin : ∃ e ∈ errorsOf clfs X y w, e < 1) :
    ∃ bi c w2, argminIdx (errorsOf clfs X y w) = some bi ∧
      fitLoop clfs X y (rounds + 1) w alphas sel =
        fitLoop clfs X y rounds w2
          (alphas ++ [0.5 * Real.log ((1 - (errorsOf clfs X y w).getD bi 0) /
            ((errorsOf clfs X y w).getD bi 0 + 1e-10))])
          (sel ++ [c]) := by
  obtain ⟨bi, hbi⟩ := argminIdx_of_ne_nil _ (errorsOf_ne_nil clfs X y w hne)
  obtain ⟨hblt, hminle⟩ := argminIdx_spec _ _ hbi
  obtain ⟨e, hemem, helt⟩ := hmin
  have hlt1 : (errorsOf clfs X y w).getD bi 0 < 1 := lt_of_le_of_lt (hminle e hemem) helt
  have hfr : fitRound clfs X y w = .ok (some (alphaFormula ((errorsOf clfs X y w).getD bi 0),
      clfs.getD bi (fun _ => []),
      updateWeights w y ((clfs.map (fun clf => clf X)).getD bi [])
        (alphaFormula ((errorsOf clfs X y w).getD bi 0)))) := by
    rw [fitRound_eq, hbi]
    exact if_neg (not_le.mpr hlt1)
  refine ⟨bi, clfs.getD bi (fun _ => []),
    updateWeights w y ((clfs.map (fun clf => clf X)).getD bi [])
      (alphaFormula ((errorsOf clfs X y w).getD bi 0)), hbi, ?_⟩
  simp only [fitLoop, hfr]
  rfl

/-- Witness for C1: a single always-correct classifier has weighted error 0. -/
theorem alpha_formula_in_round_witness :
    ([clfOne] ≠ ([] : List Clf)) ∧
    (∃ e ∈ errorsOf [clfOne] [[(0 : ℝ)]] [(1 : Int)] [(1 : ℝ)], e < 1) ∧
    (∃ bi c w2, argminIdx (errorsOf [clfOne] [[(0 : ℝ)]] [(1 : Int)] [(1 : ℝ)]) = some bi ∧
      fitLoop [clfOne] [[(0 : ℝ)]] [(1 : Int)] (0 + 1) [(1 : ℝ)] [] [] =
        fitLoop [clfOne] [[(0 : ℝ)]] [(1 : Int)] 0 w2
          ([] ++ [0.5 * Real.log
            ((1 - (errorsOf [clfOne] [[(0 : ℝ)]] [(1 : Int)] [(1 : ℝ)]).getD bi 0) /
            ((errorsOf [clfOne] [[(0 : ℝ)]] [(1 : Int)] [(1 : ℝ)]).getD bi 0 + 1e-10))])
          ([] ++ [c])) := by
  have hne : [clfOne] ≠ ([] : List Clf) := by simp
  have herr : errorsOf [clfOne] [[(0 : ℝ)]] [(1 : Int)] [(1 : ℝ)] = [0] := by
    simp [errorsOf, weightedError, clfOne]
  have hmin : ∃ e ∈ errorsOf [clfOne] [[(0 : ℝ)]] [(1 : Int)] [(1 : ℝ)], e < 1 := by
    rw [herr]
    exact ⟨0, by simp, by norm_num⟩
  exact ⟨hne, hmin,
    alpha_formula_in_round [clfOne] [[(0 : ℝ)]] [(1 : Int)] [(1 : ℝ)] [] [] 0 hne hmin⟩

/-- C2: if on some round the minimum weighted error over all candidates is at
least 1, the boosting loop terminates early without appending a record for
that round, returning the accumulated state unchanged as a success; at the
`fit` level a fresh model then succeeds with fewer than `n_estimators`
records. -/
theorem early_stop_on_degenerate_error :
    (∀ (clfs : List Clf) (X : List (List ℝ)) (y : List Int) (w alphas : List ℝ)
        (sel : List Clf) (rounds : Nat), clfs ≠ [] →
      (∀ e ∈ errorsOf clfs X y w, 1 ≤ e) →
      fitLoop clfs X y (rounds + 1) w alphas sel = .ok (w, alphas, sel)) ∧
    (∀ (m : AdaBoost) (X : List (List ℝ)) (y : List Int),
      m.weak_classifiers ≠ [] → 1 ≤ m.n_estimators →
      m.alphas = [] → m.selected_classifiers = [] →
      (∀ e ∈ errorsOf m.weak_classifiers X y (initialWeights X.length), 1 ≤ e) →
      m.fit X y = .ok m ∧ m.selected_classifiers.length < m.n_estimators) := by
  have hloop : ∀ (clfs : List Clf) (X : List (List ℝ)) (y : List Int) (w alphas : List ℝ)
      (sel : List Clf) (rounds : Nat), clfs ≠ [] →
      (∀ e ∈ errorsOf clfs X y w, 1 ≤ e) →
      fitLoop clfs X y (rounds + 1) w alphas sel = .ok (w, alphas, sel) := by
    intro clfs X y w alphas sel rounds hne hge
    obtain ⟨bi, hbi⟩ := argminIdx_of_ne_nil _ (errorsOf_ne_nil clfs X y w hne)
    obtain ⟨hblt, -⟩ := argminIdx_spec _ _ hbi
    have hmem : (errorsOf clfs X y w).getD bi 0 ∈ errorsOf clfs X y w := by
      rw [List.getD_eq_getElem _ 0 hblt]
      exact List.getElem_mem hblt
    have hfr : fitRound clfs X y w = .ok none := by
      rw [fitRound_eq, hbi]
      exact if_pos (hge _ hmem)
    simp only [fitLoop, hfr]
  refine ⟨hloop, ?_⟩
  intro m X y hne hn ha hs hge
  obtain ⟨r, hr⟩ := Nat.exists_eq_add_of_le hn
  have hfl : fitLoop m.weak_classifiers X y m.n_estimators (initialWeights X.length)
      m.alphas m.selected_classifiers
      = .ok (initialWeights X.length, m.alphas, m.selected_classifiers) := by
    rw [hr, Nat.add_comm 1 r]
    exact hloop m.weak_classifiers X y (initialWeights X.length) m.alphas
      m.selected_classifiers r hne hge
  have hfit : m.fit X y = .ok m := by
    unfold AdaBoost.fit
    rw [hfl]
  refine ⟨hfit, ?_⟩
  rw [hs, hr]
  simp

/-- Witness for C2: a single always-wrong classifier has weighted error 1. -/
theorem early_stop_on_degenerate_error_witness :
    (fitLoop [clfNeg] [[(0 : ℝ)]] [(1 : Int)] (0 + 1) [(1 : ℝ)] [] [] =
      .ok ([(1 : ℝ)], [], [])) ∧
    ((AdaBoost.init [clfNeg] 1 1).fit [[(0 : ℝ)]] [(1 : Int)] = .ok (AdaBoost.init [clfNeg] 1 1) ∧
      (AdaBoost.init [clfNeg] 1 1).selected_classifiers.length <
        (AdaBoost.init [clfNeg] 1 1).n_estimators) := by
  have hge1 : ∀ e ∈ errorsOf [clfNeg] [[(0 : ℝ)]] [(1 : Int)] [(1 : ℝ)], 1 ≤ e := by
    have h : errorsOf [clfNeg] [[(0 : ℝ)]] [(1 : Int)] [(1 : ℝ)] = [1] := by
      simp [errorsOf, weightedError, clfNeg]
    rw [h]
    intro e he
    rw [List.mem_singleton.mp he]
  have hge2 : ∀ e ∈ errorsOf [clfNeg] [[(0 : ℝ)]] [(1 : Int)]
      (initialWeights [[(0 : ℝ)]].length), 1 ≤ e := by
    have h : errorsOf [clfNeg] [[(0 : ℝ)]] [(1 : Int)] (initialWeights [[(0 : ℝ)]].length)
        = [1] := by
      simp [errorsOf, weightedError, clfNeg, initialWeights]
    rw [h]
    intro e he
    rw [List.mem_singleton.mp he]
  exact ⟨early_stop_on_degenerate_error.1 [clfNeg] [[(0 : ℝ)]] [(1 : Int)] [(1 : ℝ)] [] [] 0
      (by simp) hge1,
    early_stop_on_degenerate_error.2 (AdaBoost.init [clfNeg] 1 1) [[(0 : ℝ)]] [(1 : Int)]
      (by simp [AdaBoost.init]) (by simp [AdaBoost.init]) rfl rfl hge2⟩

theorem fitLoop_append (clfs : List Clf) (X : List (List ℝ)) (y : List Int) :
    ∀ (rounds : Nat) (w alphas : List ℝ) (sel : List Clf) (w2 alphas2 : List ℝ)
      (sel2 : List Clf),
      fitLoop clfs X y rounds w alphas sel = .ok (w2, alphas2, sel2) →
      ∃ da ds, alphas2 = alphas ++ da ∧ sel2 = sel ++ ds ∧ da.length = ds.length := by
  intro rounds
  induction rounds with
  | zero =>
    intro w a s w2 a2 s2 h
    simp only [fitLoop, Except.ok.injEq, Prod.mk.injEq] at h
    obtain ⟨-, rfl, rfl⟩ := h
    exact ⟨[], [], by simp, by simp, rfl⟩
  | succ r ih =>
    intro w a s w2 a2 s2 h
    cases hfr : fitRound clfs X y w with
    | error e =>
      simp only [fitLoop, hfr] at h
      exact Except.noConfusion h
    | ok o =>
      match o with
      | none =>
        simp only [fitLoop, hfr, Except.ok.injEq, Prod.mk.injEq] at h
        obtain ⟨-, rfl, rfl⟩ := h
        exact ⟨[], [], by simp, by simp, rfl⟩
      | some (alpha, c, wmid) =>
        simp only [fitLoop, hfr] at h
        obtain ⟨da, ds, h1, h2, h3⟩ := ih wmid (a ++ [alpha]) (s ++ [c]) w2 a2 s2 h
        exact ⟨alpha :: da, c :: ds, by simp [h1], by simp [h2], by simp [h3]⟩

/-- C10: `alphas` and `selected_classifiers` both start empty at construction;
every successful `fit` call appends its new records after the existing ones
(the same number to each list, one per completed round), so the length
equality between the two record lists is preserved and a second `fit` call
extends the first call's records instead of retraining from scratch. -/
theorem records_append_only :
    (∀ (clfs : List Clf) (n k : Nat),
      (AdaBoost.init clfs n k).alphas = [] ∧
      (AdaBoost.init clfs n k).selected_classifiers = []) ∧
    (∀ (m m2 : AdaBoost) (X : List (List ℝ)) (y : List Int), m.fit X y = .ok m2 →
      ∃ da ds, da.length = ds.length ∧
        m2.alphas = m.alphas ++ da ∧
        m2.selected_classifiers = m.selected_classifiers ++ ds ∧
        (m.alphas.length = m.selected_classifiers.length →
          m2.alphas.length = m2.selected_classifiers.length)) := by
  refine ⟨fun clfs n k => ⟨rfl, rfl⟩, ?_⟩
  intro m m2 X y h
  unfold AdaBoost.fit at h
  cases hfl : fitLoop m.weak_classifiers X y m.n_estimators (initialWeights X.length)
      m.alphas m.selected_classifiers with
  | error e =>
    simp only [hfl] at h
    exact Except.noConfusion h
  | ok t =>
    obtain ⟨w2, a2, s2⟩ := t
    simp only [hfl, Except.ok.injEq] at h
    obtain ⟨da, ds, h1, h2, h3⟩ :=
      fitLoop_append m.weak_classifiers X y m.n_estimators _ _ _ _ _ _ hfl
    refine ⟨da, ds, h3, ?_, ?_, ?_⟩
    · rw [← h]
      simpa using h1
    · rw [← h]
      simpa using h2
    · intro hlen
      rw [← h]
      simp only [h1, h2, List.length_append, hlen, h3]

/-- Witness for C10: a `fit` call with `n_estimators = 0` succeeds and appends
nothing. -/
theorem records_append_only_witness :
    ((AdaBoost.init [] 50 1).alphas = [] ∧
      (AdaBoost.init [] 50 1).selected_classifiers = []) ∧
    (∃ da ds, da.length = ds.length ∧
      (AdaBoost.init [] 0 1).alphas = (AdaBoost.init [] 0 1).alphas ++ da ∧
      (AdaBoost.init [] 0 1).selected_classifiers =
        (AdaBoost.init [] 0 1).selected_classifiers ++ ds ∧
      ((AdaBoost.init [] 0 1).alphas.length =
          (AdaBoost.init [] 0 1).selected_classifiers.length →
        (AdaBoost.init [] 0 1).alphas.length =
          (AdaBoost.init [] 0 1).selected_classifiers.length)) :=
  ⟨records_append_only.1 [] 50 1,
    records_append_only.2 (AdaBoost.init [] 0 1) (AdaBoost.init [] 0 1)
      [[(0 : ℝ)]] [(1 : Int)] rfl⟩

/-- C5 counterexample: with an empty classifier collection and
`n_estimators = 0`, `fit` succeeds, so `fit` does not fail upfront with an
InvalidConfiguration error for every input. -/
theorem fit_empty_classifiers_zero_estimators_ok :
    (AdaBoost.init [] 0 1).fit [[(0 : ℝ)]] [(1 : Int)] = .ok (AdaBoost.init [] 0 1) := rfl

/-- C5 amended: with an empty classifier collection, `fit` raises the numpy
`argmin`-of-empty-sequence `ValueError` inside the first loop iteration when
`n_estimators ≥ 1` (and succeeds untouched when `n_estimators = 0`); there is
no upfront InvalidConfiguration check. -/
theorem fit_empty_classifiers_argmin_error (m : AdaBoost) (X : List (List ℝ)) (y : List Int)
    (hclf : m.weak_classifiers = []) (hn : 1 ≤ m.n_estimators) :
    m.fit X y = .error "attempt to get argmin of an empty sequence" := by
  obtain ⟨r, hr⟩ := Nat.exists_eq_add_of_le hn
  have hfl : fitLoop m.weak_classifiers X y m.n_estimators (initialWeights X.length)
      m.alphas m.selected_classifiers
      = .error "attempt to get argmin of an empty sequence" := by
    rw [hclf, hr, Nat.add_comm 1 r]
    rfl
  unfold AdaBoost.fit
  rw [hfl]

/-- Witness for C5 amended: a fresh ensemble over no classifiers with one
round requested. -/
theorem fit_empty_classifiers_argmin_error_witness :
    (AdaBoost.init [] 1 1).weak_classifiers = [] ∧
    1 ≤ (AdaBoost.init [] 1 1).n_estimators ∧
    (AdaBoost.init [] 1 1).fit [[(0 : ℝ)]] [(1 : Int)] =
      .error "attempt to get argmin of an empty sequence" :=
  ⟨rfl, le_refl 1,
    fit_empty_classifiers_argmin_error (AdaBoost.init [] 1 1) [[(0 : ℝ)]] [(1 : Int)]
      rfl (le_refl 1)⟩

/-- C6 counterexample: `fit` with `n_estimators = 0` succeeds and leaves zero
selected records, and `predict` then silently returns `-1` for every sample
via the empty dot product instead of failing with an InvalidState error. -/
theorem predict_no_records_returns_neg :
    (AdaBoost.init [clfOne] 0 1).fit [[(0 : ℝ)], [(1 : ℝ)]] [1, -1] =
      .ok (AdaBoost.init [clfOne] 0 1) ∧
    (AdaBoost.init [clfOne] 0 1).predict [[(0 : ℝ)], [(1 : ℝ)]] = [-1, -1] := by
  refine ⟨rfl, ?_⟩
  unfold AdaBoost.predict
  simp [AdaBoost.init, List.range_succ]

/-- C6 amended: on an ensemble with no selected records, `predict` does not
fail; the alpha-weighted sum is the empty sum 0 for every sample, and the
strict-positivity tie-break turns each into `-1`. -/
theorem predict_no_records_all_neg (m : AdaBoost) (X : List (List ℝ))
    (ha : m.alphas = []) (hs : m.selected_classifiers = []) :
    m.predict X = List.replicate X.length (-1) := by
  unfold AdaBoost.predict
  rw [ha, hs]
  simp

/-- Witness for C6 amended: the freshly constructed ensemble has no records. -/
theorem predict_no_records_all_neg_witness :
    (AdaBoost.init [clfOne] 0 1).alphas = [] ∧
    (AdaBoost.init [clfOne] 0 1).selected_classifiers = [] ∧
    (AdaBoost.init [clfOne] 0 1).predict [[(0 : ℝ)], [(1 : ℝ)]] = List.replicate 2 (-1) :=
  ⟨rfl, rfl, predict_no_records_all_neg (AdaBoost.init [clfOne] 0 1) [[(0 : ℝ)], [(1 : ℝ)]] rfl rfl⟩

/-! ## Weight invariant lemmas for C3 -/

theorem sum_map_div (l : List ℝ) (s : ℝ) : (l.map (fun x => x / s)).sum = l.sum / s := by
  induction l with
  | nil => simp
  | cons a t ih => simp [ih, add_div]

theorem exists_pos_of_sum_eq_one (w : List ℝ) (h1 : w.sum = 1)
    (h0 : ∀ x ∈ w, 0 ≤ x) : ∃ x ∈ w, 0 < x := by
  by_contra hc
  push_neg at hc
  have hz : ∀ x ∈ w, x = 0 := fun x hx => le_antisymm (hc x hx) (h0 x hx)
  have h1' := List.sum_eq_zero hz
  rw [h1] at h1'
  exact one_ne_zero h1'

theorem updateWeights_inv (w : List ℝ) (y preds : List Int) (alpha : ℝ) (n : Nat)
    (hw : w.length = n) (hy : y.length = n) (hp : preds.length = n) (hn : 1 ≤ n)
    (hsum : w.sum = 1) (hpos : ∀ x ∈ w, 0 ≤ x) :
    (updateWeights w y preds alpha).sum = 1 ∧
      (∀ x ∈ updateWeights w y preds alpha, 0 ≤ x) ∧
      (updateWeights w y preds alpha).length = n := by
  set w1 := (w.zip (y.zip preds)).map
    (fun p => p.1 * Real.exp (-alpha * (p.2.1 : ℝ) * (p.2.2 : ℝ))) with hw1
  have hlen1 : w1.length = n := by
    simp [hw1, hw, hy, hp]
  have h1nonneg : ∀ x ∈ w1, 0 ≤ x := by
    intro x hx
    rcases List.mem_map.mp hx with ⟨p, hpmem, rfl⟩
    exact mul_nonneg (hpos _ (List.of_mem_zip hpmem).1) (Real.exp_pos _).le
  have hspos : 0 < w1.sum := by
    obtain ⟨x, hxmem, hxpos⟩ := exists_pos_of_sum_eq_one w hsum hpos
    obtain ⟨k, hk, hkx⟩ := List.mem_iff_getElem.mp hxmem
    have hk1 : k < w1.length := by
      rw [hlen1]
      rw [hw] at hk
      exact hk
    have hkz : k < (w.zip (y.zip preds)).length := by
      have := hk1
      simpa [hw1] using this
    have hval : 0 < w1[k] := by
      simp only [hw1, List.getElem_map, List.getElem_zip]
      apply mul_pos _ (Real.exp_pos _)
      exact lt_of_lt_of_eq hxpos hkx.symm
    have hmem : w1[k] ∈ w1 := List.getElem_mem hk1
    have hle := List.single_le_sum h1nonneg _ hmem
    linarith
  refine ⟨?_, ?_, ?_⟩
  · show (w1.map (fun x => x / w1.sum)).sum = 1
    rw [sum_map_div, div_self (ne_of_gt hspos)]
  · intro x hx
    rcases List.mem_map.mp hx with ⟨a, ha, rfl⟩
    exact div_nonneg (h1nonneg a ha) hspos.le
  · show (w1.map (fun x => x / w1.sum)).length = n
    simp [hlen1]

theorem fitRound_inv (clfs : List Clf) (X : List (List ℝ)) (y : List Int) (w : List ℝ)
    (alpha : ℝ) (c : Clf) (w2 : List ℝ)
    (hc : ∀ f ∈ clfs, (f X).length = X.length)
    (hy : y.length = X.length) (hN : 1 ≤ X.length)
    (hw : w.length = X.length) (hsum : w.sum = 1) (hpos : ∀ x ∈ w, 0 ≤ x)
    (h : fitRound clfs X y w = .ok (some (alpha, c, w2))) :
    w2.sum = 1 ∧ (∀ x ∈ w2, 0 ≤ x) ∧ w2.length = X.length := by
  rw [fitRound_eq] at h
  cases hbi : argminIdx (errorsOf clfs X y w) with
  | none =>
    simp only [hbi] at h
    exact Except.noConfusion h
  | some bi =>
    simp only [hbi] at h
    by_cases hge : 1 ≤ (errorsOf clfs X y w).getD bi 0
    · rw [if_pos hge] at h
      simp at h
    · rw [if_neg hge] at h
      simp only [Except.ok.injEq, Option.some.injEq, Prod.mk.injEq] at h
      obtain ⟨-, -, hw2⟩ := h
      have hbilt : bi < clfs.length := by
        have hb := (argminIdx_spec _ _ hbi).1
        rwa [errorsOf_length] at hb
      have hpl : ((clfs.map (fun clf => clf X)).getD bi []).length = X.length := by
        rw [List.getD_eq_getElem _ _ (by simpa using hbilt), List.getElem_map]
        exact hc _ (List.getElem_mem hbilt)
      rw [← hw2]
      exact updateWeights_inv w y _ _ X.length hw hy hpl hN hsum hpos

theorem fitLoop_inv (clfs : List Clf) (X : List (List ℝ)) (y : List Int)
    (hc : ∀ f ∈ clfs, (f X).length = X.length)
    (hy : y.length = X.length) (hN : 1 ≤ X.length) :
    ∀ (rounds : Nat) (w alphas : List ℝ) (sel : List Clf) (w2 alphas2 : List ℝ)
      (sel2 : List Clf),
      w.length = X.length → w.sum = 1 → (∀ x ∈ w, 0 ≤ x) →
      fitLoop clfs X y rounds w alphas sel = .ok (w2, alphas2, sel2) →
      w2.sum = 1 ∧ (∀ x ∈ w2, 0 ≤ x) ∧ w2.length = X.length := by
  intro rounds
  induction rounds with
  | zero =>
    intro w a s w2 a2 s2 hw hsum hpos h
    simp only [fitLoop, Except.ok.injEq, Prod.mk.injEq] at h
    obtain ⟨rfl, -, -⟩ := h
    exact ⟨hsum, hpos, hw⟩
  | succ r ih =>
    intro w a s w2 a2 s2 hw hsum hpos h
    cases hfr : fitRound clfs X y w with
    | error e =>
      simp only [fitLoop, hfr] at h
      exact Except.noConfusion h
    | ok o =>
      match o with
      | none =>
        simp only [fitLoop, hfr, Except.ok.injEq, Prod.mk.injEq] at h
        obtain ⟨rfl, -, -⟩ := h
        exact ⟨hsum, hpos, hw⟩
      | some (alpha, c, wmid) =>
        simp only [fitLoop, hfr] at h
        obtain ⟨hs1, hn1, hl1⟩ := fitRound_inv clfs X y w alpha c wmid hc hy hN hw hsum hpos hfr
        exact ih wmid (a ++ [alpha]) (s ++ [c]) w2 a2 s2 hl1 hs1 hn1 h

/-- C3: on any valid input (aligned labels, classifiers producing one label
per sample, at least one sample), the sample weight vector sums to 1 with all
entries non-negative after initialization, and again after any number of
boosting rounds of the loop started from the initial weights. -/
theorem weight_invariant (clfs : List Clf) (X : List (List ℝ)) (y : List Int)
    (hc : ∀ f ∈ clfs, (f X).length = X.length)
    (hy : y.length = X.length) (hN : 1 ≤ X.length) :
    ((initialWeights X.length).sum = 1 ∧ ∀ x ∈ initialWeights X.length, 0 ≤ x) ∧
    (∀ (rounds : Nat) (alphas : List ℝ) (sel : List Clf) (w2 alphas2 : List ℝ)
      (sel2 : List Clf),
      fitLoop clfs X y rounds (initialWeights X.length) alphas sel = .ok (w2, alphas2, sel2) →
      w2.sum = 1 ∧ ∀ x ∈ w2, 0 ≤ x) := by
  have hNcast : (0 : ℝ) < (X.length : ℝ) := by
    exact_mod_cast Nat.lt_of_lt_of_le Nat.zero_lt_one hN
  have hinitsum : (initialWeights X.length).sum = 1 := by
    unfold initialWeights
    rw [List.sum_replicate, nsmul_eq_mul]
    field_simp
  have hinitpos : ∀ x ∈ initialWeights X.length, 0 ≤ x := by
    intro x hx
    rw [List.eq_of_mem_replicate hx]
    positivity
  refine ⟨⟨hinitsum, hinitpos⟩, ?_⟩
  intro rounds alphas sel w2 alphas2 sel2 h
  obtain ⟨h1, h2, -⟩ := fitLoop_inv clfs X y hc hy hN rounds (initialWeights X.length)
    alphas sel w2 alphas2 sel2 (by simp [initialWeights]) hinitsum hinitpos h
  exact ⟨h1, h2⟩

/-- Witness for C3 on a one-sample instance. -/
theorem weight_invariant_witness :
    ((initialWeights [[(0 : ℝ)]].length).sum = 1 ∧
      ∀ x ∈ initialWeights [[(0 : ℝ)]].length, 0 ≤ x) ∧
    (∀ (rounds : Nat) (alphas : List ℝ) (sel : List Clf) (w2 alphas2 : List ℝ)
      (sel2 : List Clf),
      fitLoop [clfOne] [[(0 : ℝ)]] [(1 : Int)] rounds (initialWeights [[(0 : ℝ)]].length)
        alphas sel = .ok (w2, alphas2, sel2) →
      w2.sum = 1 ∧ ∀ x ∈ w2, 0 ≤ x) :=
  weight_invariant [clfOne] [[(0 : ℝ)]] [(1 : Int)]
    (by
      intro f hf
      rw [List.mem_singleton.mp hf]
      simp [clfOne])
    (by simp) (by simp)

/-! ## Prediction lemmas for C4 -/

theorem zip_map_sum_eq_specScore (alphas : List ℝ) (preds : List (List Int)) (j : Nat)
    (h : alphas.length = preds.length) :
    ((alphas.zip preds).map (fun p => p.1 * ((p.2.getD j 0 : Int) : ℝ))).sum =
      specScore alphas preds j := by
  induction alphas generalizing preds with
  | nil => simp [specScore]
  | cons a as ih =>
    cases preds with
    | nil => simp at h
    | cons q qs =>
      have hlen : as.length = qs.length := by simpa using h
      simp only [List.zip_cons_cons, List.map_cons, List.sum_cons]
      rw [ih qs hlen]
      unfold specScore
      rw [List.length_cons, Finset.sum_range_succ']
      simp only [List.getD_cons_succ, List.getD_cons_zero]
      exact (add_comm _ _)

/-- C4: for an ensemble with matching record lists and at least one selected
record, `predict` outputs, for each sample index `j` of `X`, `+1` exactly when
the alpha-weighted sum of the selected classifiers' predictions is strictly
positive and `-1` otherwise, a sum of exactly zero resolving to `-1`. -/
theorem predict_weighted_majority (m : AdaBoost) (X : List (List ℝ)) (j : Nat)
    (hlen : m.alphas.length = m.selected_classifiers.length)
    (hne : m.selected_classifiers ≠ []) (hj : j < X.length) :
    ((m.predict X).getD j 0 =
      if 0 < specScore m.alphas (m.selected_classifiers.map (fun clf => clf X)) j
      then 1 else -1) ∧
    (specScore m.alphas (m.selected_classifiers.map (fun clf => clf X)) j = 0 →
      (m.predict X).getD j 0 = -1) := by
  have key : (m.predict X).getD j 0 =
      if 0 < specScore m.alphas (m.selected_classifiers.map (fun clf => clf X)) j
      then 1 else -1 := by
    unfold AdaBoost.predict
    rw [getD_map_range _ X.length j hj]
    rw [zip_map_sum_eq_specScore m.alphas (m.selected_classifiers.map (fun clf => clf X)) j
      (by simpa using hlen)]
  refine ⟨key, fun h0 => ?_⟩
  rw [key, h0, if_neg (lt_irrefl 0)]

/-- Witness for C4: one record with alpha 1 over an always-plus classifier. -/
theorem predict_weighted_majority_witness :
    ((AdaBoost.mk [clfOne] 50 1 [(1 : ℝ)] [clfOne]).alphas.length =
      (AdaBoost.mk [clfOne] 50 1 [(1 : ℝ)] [clfOne]).selected_classifiers.length) ∧
    ((AdaBoost.mk [clfOne] 50 1 [(1 : ℝ)] [clfOne]).selected_classifiers ≠ []) ∧
    (0 < [[(0 : ℝ)]].length) ∧
    ((((AdaBoost.mk [clfOne] 50 1 [(1 : ℝ)] [clfOne]).predict [[(0 : ℝ)]]).getD 0 0 =
      if 0 < specScore (AdaBoost.mk [clfOne] 50 1 [(1 : ℝ)] [clfOne]).alphas
        ((AdaBoost.mk [clfOne] 50 1 [(1 : ℝ)] [clfOne]).selected_classifiers.map
          (fun clf => clf [[(0 : ℝ)]])) 0
      then 1 else -1) ∧
    (specScore (AdaBoost.mk [clfOne] 50 1 [(1 : ℝ)] [clfOne]).alphas
        ((AdaBoost.mk [clfOne] 50 1 [(1 : ℝ)] [clfOne]).selected_classifiers.map
          (fun clf => clf [[(0 : ℝ)]])) 0 = 0 →
      ((AdaBoost.mk [clfOne] 50 1 [(1 : ℝ)] [clfOne]).predict [[(0 : ℝ)]]).getD 0 0 = -1)) :=
  ⟨rfl, by simp, by simp,
    predict_weighted_majority (AdaBoost.mk [clfOne] 50 1 [(1 : ℝ)] [clfOne]) [[(0 : ℝ)]] 0
      rfl (by simp) (by simp)⟩

/-! ## VectorizeKernel results for C9 -/

/-- C9 counterexample: with feature dimensions 1 and 2 disagreeing between
`X` and `Y`, the call does not fail with a ShapeMismatch error; it returns
the 1 by 1 kernel matrix obtained by applying the kernel to the mismatched
rows. -/
theorem vectorize_kernel_no_shape_check :
    VectorizeKernel.call ⟨fun x yrow => (x.length : ℝ) + (yrow.length : ℝ)⟩
      [[(1 : ℝ)]] (some [[(1 : ℝ), 2]]) = [[(3 : ℝ)]] := by
  unfold VectorizeKernel.call
  norm_num

/-- C9 amended: the call never validates shapes; for any `X` and `Y` it
returns the `|X|` by `|Y|` matrix whose `(i, j)` entry is
`kernel (X[i]) (Y[j])`, and omitting `Y` computes the same matrix with `Y`
taken to be `X`. -/
theorem vectorize_kernel_matrix_entries (k : VectorizeKernel) (X Y : List (List ℝ)) :
    (VectorizeKernel.call k X (some Y)).length = X.length ∧
    (∀ i, i < X.length → ((VectorizeKernel.call k X (some Y)).getD i []).length = Y.length) ∧
    (∀ i j, i < X.length → j < Y.length →
      ((VectorizeKernel.call k X (some Y)).getD i []).getD j 0 =
        k.kernel (X.getD i []) (Y.getD j [])) ∧
    VectorizeKernel.call k X none = VectorizeKernel.call k X (some X) := by
  refine ⟨by simp [VectorizeKernel.call], ?_, ?_, rfl⟩
  · intro i hi
    show ((X.map (fun x => Y.map (fun yrow => k.kernel x yrow))).getD i []).length = Y.length
    rw [List.getD_eq_getElem _ [] (by simpa using hi), List.getElem_map]
    simp
  · intro i j hi hj
    show ((X.map (fun x => Y.map (fun yrow => k.kernel x yrow))).getD i []).getD j 0 =
      k.kernel (X.getD i []) (Y.getD j [])
    rw [List.getD_eq_getElem _ [] (by simpa using hi), List.getElem_map]
    rw [List.getD_eq_getElem _ 0 (by simpa using hj), List.getElem_map]
    rw [List.getD_eq_getElem X [] hi, List.getD_eq_getElem Y [] hj]

/-- Witness for C9 amended at a concrete 1 by 1 instance. -/
theorem vectorize_kernel_matrix_entries_witness :
    (VectorizeKernel.call zeroKernel [[(1 : ℝ)]] (some [[(2 : ℝ)]])).length = 1 ∧
    ((VectorizeKernel.call zeroKernel [[(1 : ℝ)]] (some [[(2 : ℝ)]])).getD 0 []).length = 1 ∧
    ((VectorizeKernel.call zeroKernel [[(1 : ℝ)]] (some [[(2 : ℝ)]])).getD 0 []).getD 0 0 =
      zeroKernel.kernel ([[(1 : ℝ)]].getD 0 []) ([[(2 : ℝ)]].getD 0 []) ∧
    VectorizeKernel.call zeroKernel [[(1 : ℝ)]] none =
      VectorizeKernel.call zeroKernel [[(1 : ℝ)]] (some [[(1 : ℝ)]]) := by
  obtain ⟨h1, h2, h3, h4⟩ := vectorize_kernel_matrix_entries zeroKernel [[(1 : ℝ)]] [[(2 : ℝ)]]
  exact ⟨h1, h2 0 (by simp), h3 0 0 (by simp) (by simp), h4⟩
